import Mathlib

/-!
Verification of the phoenix furnace-controller repository: a shallow
embedding of `python/running_average.py`, `python/profile.py`,
`python/pid.py` and `src/burst.py`, with theorems settling the spec
claims about them.  Machine floats are modelled by `ℚ`; a Python call
that can raise returns `Option` (with `none` for the raise).
-/

set_option autoImplicit false

namespace Phoenix

/-- Python's `int()` applied to a rational: truncation toward zero. -/
def pyInt (q : ℚ) : ℤ :=
  if 0 ≤ q then ⌊q⌋ else ⌈q⌉

/-- Rounding to the nearest integer (used only to state the spec's
`round` wording; the code itself truncates). -/
def roundNearest (q : ℚ) : ℤ :=
  ⌊q + 1 / 2⌋

/-! ## `python/running_average.py` -/

/-- The `RunningAverage` class: a capacity and the list of stored values,
oldest first. -/
structure RunningAverage where
  size : ℕ
  values : List ℚ
  deriving Repr, DecidableEq

namespace RunningAverage

/-- `RunningAverage(size)`. -/
def mk0 (size : ℕ) : RunningAverage :=
  ⟨size, []⟩

/-- `add`: append the value, then `pop(0)` if the length exceeds `size`. -/
def add (b : RunningAverage) (v : ℚ) : RunningAverage :=
  let vs := b.values ++ [v]
  if b.size < vs.length then ⟨b.size, vs.drop 1⟩ else ⟨b.size, vs⟩

/-- `average`: arithmetic mean of the contents, `0.0` when empty. -/
def average (b : RunningAverage) : ℚ :=
  match b.values with
  | [] => 0
  | v :: vs => ((v :: vs).sum : ℚ) / ((v :: vs).length : ℚ)

/-- `clear`. -/
def clear (b : RunningAverage) : RunningAverage :=
  ⟨b.size, []⟩

/-- Folding `add` over a list of samples. -/
def addAll (b : RunningAverage) (l : List ℚ) : RunningAverage :=
  l.foldl add b

end RunningAverage

/-! ## `python/profile.py` -/

/-- The bracket-searching loop of `piecewise_linear_setpoint`: find the
first consecutive pair with `t1 <= current_time <= t2` and interpolate. -/
def findBracket (t : ℚ) : List (ℚ × ℚ) → Option ℚ
  | (t1, T1) :: (t2, T2) :: rest =>
      if t1 ≤ t ∧ t ≤ t2 then
        some (T1 + (t - t1) / (t2 - t1) * (T2 - T1))
      else
        findBracket t ((t2, T2) :: rest)
  | _ => none

/-- `piecewise_linear_setpoint(current_time, profile)`; `none` models the
`IndexError` raised on an empty profile. -/
def piecewise_linear_setpoint (t : ℚ) : List (ℚ × ℚ) → Option ℚ
  | [] => none
  | first :: rest =>
      let last := (first :: rest).getLast (List.cons_ne_nil _ _)
      if t ≤ first.1 then some first.2
      else if last.1 ≤ t then some last.2
      else
        match findBracket t (first :: rest) with
        | some v => some v
        | none => some last.2

/-- The per-segment slope computation of `validate_profile_rate`: `none`
models the `ValueError` raised on an unknown `rate_unit`. -/
def slopeInUnit (rate_unit : String) (dt dT : ℚ) : Option ℚ :=
  if rate_unit = "deg/min" then some ((dT / dt) * 60)
  else if rate_unit = "deg/s" then some (dT / dt)
  else none

/-- The loop of `validate_profile_rate`, carrying the running segment
index. -/
def validateAux (max_rate : ℚ) (rate_unit : String) (i : ℕ) :
    List (ℚ × ℚ) → Option (List (ℕ × ℚ))
  | (t1, T1) :: (t2, T2) :: rest =>
      let dt := t2 - t1
      if dt ≤ 0 then validateAux max_rate rate_unit (i + 1) ((t2, T2) :: rest)
      else
        match slopeInUnit rate_unit dt (T2 - T1) with
        | none => none
        | some slope =>
            match validateAux max_rate rate_unit (i + 1) ((t2, T2) :: rest) with
            | none => none
            | some vs => some (if max_rate < |slope| then (i, slope) :: vs else vs)
  | _ => some []

/-- `validate_profile_rate(profile, max_rate, rate_unit)`. -/
def validate_profile_rate (profile : List (ℚ × ℚ)) (max_rate : ℚ)
    (rate_unit : String) : Option (List (ℕ × ℚ)) :=
  validateAux max_rate rate_unit 0 profile

/-- The spec's description of `validateRampRate`, written from the spec's
words for the refinement: for each consecutive breakpoint pair, paired
with its starting index, skip it if its time difference is non-positive,
otherwise compute the slope in the requested unit and report the pair
exactly when its absolute slope exceeds `max_rate`. -/
def specViolations (slopeOf : ℚ → ℚ → ℚ) (profile : List (ℚ × ℚ))
    (max_rate : ℚ) : List (ℕ × ℚ) :=
  (profile.zip profile.tail).enum.filterMap fun ip =>
    if ip.2.2.1 - ip.2.1.1 ≤ 0 then none
    else if max_rate < |slopeOf (ip.2.2.1 - ip.2.1.1) (ip.2.2.2 - ip.2.1.2)| then
      some (ip.1, slopeOf (ip.2.2.1 - ip.2.1.1) (ip.2.2.2 - ip.2.1.2))
    else none

/-! ## `python/pid.py` -/

/-- `S_PER_MIN` from `pid.py`. -/
def S_PER_MIN : ℚ := 60

/-- `N_RAMP_AVG` from `pid.py`. -/
def N_RAMP_AVG : ℕ := 10

/-- `N_DVAL_AVG` from `pid.py`. -/
def N_DVAL_AVG : ℕ := 10

/-- The state of the `RampSoak` controller (the `debug` flag, which only
controls printing, is omitted). -/
structure RampSoak where
  kp : ℚ
  ki : ℚ
  kd : ℚ
  imax : ℚ
  ramp_up_limit : ℚ
  ramp_down_limit : ℚ
  crossover_distance : ℚ
  error : ℚ
  p_val : ℚ
  i_val : ℚ
  d_val : ℚ
  current_val : ℚ
  target_val : ℚ
  prev_val : Option ℚ
  instantaneous_ramp : ℚ
  ramp_rate : ℚ
  desired_ramp_rate : ℚ
  ramp_rate_avg : RunningAverage
  d_val_avg : RunningAverage
  deriving Repr, DecidableEq

namespace RampSoak

/-- `RampSoak.__init__`. -/
def mk0 (kp ki kd imax ramp_up_limit ramp_down_limit crossover_distance : ℚ) :
    RampSoak where
  kp := kp
  ki := ki
  kd := kd
  imax := imax
  ramp_up_limit := ramp_up_limit
  ramp_down_limit := ramp_down_limit
  crossover_distance := crossover_distance
  error := 0
  p_val := 0
  i_val := 0
  d_val := 0
  current_val := 0
  target_val := 0
  prev_val := none
  instantaneous_ramp := 0
  ramp_rate := 0
  desired_ramp_rate := 0
  ramp_rate_avg := RunningAverage.mk0 N_RAMP_AVG
  d_val_avg := RunningAverage.mk0 N_DVAL_AVG

/-- `RampSoak(...)` with the default arguments. -/
def default : RampSoak :=
  mk0 (1 / 2) (1 / 20) 1 100 30 (-30) 10

/-- `reset_pid`. -/
def reset_pid (s : RampSoak) : RampSoak :=
  { s with prev_val := none, error := 0, i_val := 0, ramp_rate := 0 }

/-- `set_target`. -/
def set_target (s : RampSoak) (target : ℚ) : RampSoak :=
  { s with target_val := target }

/-- The body of `pid_step` after the instantaneous ramp rate has been
computed.  Returns `none` when the ramp-limiting logic divides by a zero
`crossover_distance` (Python's `ZeroDivisionError`). -/
def pid_core (s : RampSoak) (cv dt inst : ℚ) : Option (RampSoak × ℚ) :=
  let rr_avg := s.ramp_rate_avg.add inst
  let ramp_rate := rr_avg.average
  let prev_error := s.error
  if (cv < s.target_val ∨ s.target_val < cv) ∧ s.crossover_distance = 0 then
    none
  else
    let de :=
      if cv < s.target_val then
        let d := min s.ramp_up_limit
          (s.ramp_up_limit * |s.target_val - cv| / s.crossover_distance)
        (d, d - ramp_rate)
      else if s.target_val < cv then
        let d := max s.ramp_down_limit
          (s.ramp_down_limit * |s.target_val - cv| / s.crossover_distance)
        (d, d - ramp_rate)
      else
        (s.desired_ramp_rate, s.target_val - cv)
    let p_val := s.kp * de.2
    let i_val0 := s.i_val + s.ki * de.2 * dt
    let d_val := if 0 < dt then s.kd * (de.2 - prev_error) / dt else 0
    let i_val := max (min i_val0 s.imax) (-s.imax)
    let d_avg := s.d_val_avg.add d_val
    some
      ({ s with
          current_val := cv
          instantaneous_ramp := inst
          ramp_rate_avg := rr_avg
          ramp_rate := ramp_rate
          prev_val := some cv
          desired_ramp_rate := de.1
          error := de.2
          p_val := p_val
          i_val := i_val
          d_val := d_val
          d_val_avg := d_avg },
        p_val + i_val + d_avg.average)

/-- `pid_step(current_val, dt)`.  Returns the new state and the control
output; `none` models a raised `ZeroDivisionError` (dividing by `dt = 0`
when a previous measurement exists, or by a zero `crossover_distance`). -/
def pid_step (s : RampSoak) (cv dt : ℚ) : Option (RampSoak × ℚ) :=
  match s.prev_val with
  | some pv =>
      if dt = 0 then none
      else pid_core s cv dt (S_PER_MIN * (cv - pv) / dt)
  | none => pid_core s cv dt 0

end RampSoak

/-! ## `src/burst.py` -/

/-- The state of the `BurstFire` actuator (the `Pin` and `Timer` handles
are omitted; the pin level driven on a tick is returned by `onTick`). -/
structure BurstFire where
  freq_hz : ℤ
  period_cycles : ℤ
  next_duty_percent : ℚ
  duty_percent : ℚ
  on_cycles : ℤ
  cycle_counter : ℤ
  deriving Repr, DecidableEq

namespace BurstFire

/-- `BurstFire.__init__` (the `output_pin_num` argument only names a GPIO
pin and is omitted). -/
def mk0 (freq_hz period_cycles : ℤ) (duty_percent : ℚ) : BurstFire where
  freq_hz := freq_hz
  period_cycles := period_cycles
  next_duty_percent := duty_percent
  duty_percent := duty_percent
  on_cycles := pyInt (period_cycles * duty_percent)
  cycle_counter := 0

/-- `_set_duty`: copy the pending duty into the active one and recompute
`on_cycles` with Python's truncating `int()`. -/
def loadDuty (s : BurstFire) : BurstFire :=
  let d := s.next_duty_percent
  { s with duty_percent := d, on_cycles := pyInt (s.period_cycles * d) }

/-- `_on_tick`: returns the updated state and the level driven on the
output pin (`true` = SSR ON). -/
def onTick (s : BurstFire) : BurstFire × Bool :=
  let pin := decide (s.cycle_counter < s.on_cycles)
  let c := s.cycle_counter + 1
  if s.period_cycles ≤ c then
    (loadDuty { s with cycle_counter := 0 }, pin)
  else
    ({ s with cycle_counter := c }, pin)

/-- `set_duty(percent)`: `none` models the failing `assert` for a value
outside `[0, 1]`. -/
def set_duty (s : BurstFire) (percent : ℚ) : Option BurstFire :=
  if 0 ≤ percent ∧ percent ≤ 1 then
    some { s with next_duty_percent := percent }
  else
    none

/-- Run `n` ticks, accumulating the pin levels in reverse order. -/
def runTicksAux (s : BurstFire) (acc : List Bool) : ℕ → BurstFire × List Bool
  | 0 => (s, acc)
  | n + 1 => runTicksAux (onTick s).1 ((onTick s).2 :: acc) n

/-- Run `n` ticks, collecting the pin levels in order. -/
def runTicks (s : BurstFire) (n : ℕ) : BurstFire × List Bool :=
  let r := runTicksAux s [] n
  (r.1, r.2.reverse)

end BurstFire

/-- The controller with the default constructor arguments and target
`100`, used for the concrete evaluations below. -/
def pidT : RampSoak :=
  RampSoak.set_target RampSoak.default 100

/-- The state reached from `pidT` by `pid_step(25, 1)` (verified by
`pid_step_pidT_eval`). -/
def pidS1 : RampSoak where
  kp := 1 / 2
  ki := 1 / 20
  kd := 1
  imax := 100
  ramp_up_limit := 30
  ramp_down_limit := -30
  crossover_distance := 10
  error := 30
  p_val := 15
  i_val := 3 / 2
  d_val := 30
  current_val := 25
  target_val := 100
  prev_val := some 25
  instantaneous_ramp := 0
  ramp_rate := 0
  desired_ramp_rate := 30
  ramp_rate_avg := ⟨10, [0]⟩
  d_val_avg := ⟨10, [30]⟩

/-! ## Helper lemmas for `RunningAverage` -/

namespace RunningAverage

lemma add_size (b : RunningAverage) (v : ℚ) : (b.add v).size = b.size := by
  simp only [add]
  split <;> rfl

lemma average_of_ne_nil (b : RunningAverage) (h : b.values ≠ []) :
    b.average = b.values.sum / (b.values.length : ℚ) := by
  rcases hv : b.values with _ | ⟨x, xs⟩
  · exact absurd hv h
  · simp [average, hv]

lemma average_of_nil (b : RunningAverage) (h : b.values = []) : b.average = 0 := by
  simp [average, h]

/-- After folding `add` over `l`, the buffer holds exactly the suffix of
`b.values ++ l` that fits in the capacity. -/
lemma addAll_spec : ∀ (l : List ℚ) (b : RunningAverage),
    b.values.length ≤ b.size →
    (b.addAll l).size = b.size ∧
      (b.addAll l).values =
        (b.values ++ l).drop (b.values.length + l.length - b.size) := by
  intro l
  induction l with
  | nil =>
      intro b hb
      refine ⟨rfl, ?_⟩
      simp [addAll, Nat.sub_eq_zero_of_le hb]
  | cons v t ih =>
      intro b hb
      have hstep : b.addAll (v :: t) = (b.add v).addAll t := rfl
      have hsize : (b.add v).size = b.size := add_size b v
      by_cases hc : b.size < b.values.length + 1
      · have hvals : (b.add v).values = (b.values ++ [v]).drop 1 := by
          simp only [add]
          rw [if_pos (by simp; omega)]
        have hlen' : (b.add v).values.length = b.size := by
          rw [hvals]
          simp
          omega
        obtain ⟨ihs, ihv⟩ := ih (b.add v) (by rw [hlen', hsize])
        refine ⟨by rw [hstep, ihs, hsize], ?_⟩
        rw [hstep, ihv, hsize, hlen', hvals]
        have e1 : b.size + t.length - b.size = t.length := by omega
        have e2 : b.values.length + (v :: t).length - b.size = t.length + 1 := by
          simp only [List.length_cons]
          omega
        rw [e1, e2,
          ← List.drop_append_of_le_length
            (show (1 : ℕ) ≤ (b.values ++ [v]).length by simp),
          List.drop_drop, List.append_assoc, List.singleton_append]
        congr 1
        omega
      · have hvals : (b.add v).values = b.values ++ [v] := by
          simp only [add]
          rw [if_neg (by simp; omega)]
        obtain ⟨ihs, ihv⟩ := ih (b.add v) (by rw [hvals, hsize]; simp; omega)
        refine ⟨by rw [hstep, ihs, hsize], ?_⟩
        rw [hstep, ihv, hsize, hvals]
        have e1 : (b.values ++ [v]).length + t.length - b.size
            = b.values.length + (v :: t).length - b.size := by
          simp only [List.length_append, List.length_cons, List.length_nil]
          omega
        rw [e1, List.append_assoc, List.singleton_append]

end RunningAverage

/-- C7: for every capacity `N >= 1` and every sequence of more than `N`
`add(value)` calls on a fresh `RunningAverage` of capacity `N`,
`average()` equals the arithmetic mean of exactly the last `N` added
values; for an empty buffer, `average()` returns `0.0`. -/
theorem running_average_last_n (N : ℕ) (l : List ℚ) (hN : 1 ≤ N)
    (hl : N < l.length) :
    (((RunningAverage.mk0 N).addAll l).values = l.drop (l.length - N) ∧
      (l.drop (l.length - N)).length = N ∧
      ((RunningAverage.mk0 N).addAll l).average =
        (l.drop (l.length - N)).sum / (N : ℚ)) ∧
    ∀ b : RunningAverage, b.values = [] → b.average = 0 := by
  obtain ⟨hs, hv⟩ := RunningAverage.addAll_spec l (RunningAverage.mk0 N)
    (by simp [RunningAverage.mk0])
  have hv' : ((RunningAverage.mk0 N).addAll l).values = l.drop (l.length - N) := by
    rw [hv]
    simp [RunningAverage.mk0]
  have hlen : (l.drop (l.length - N)).length = N := by
    rw [List.length_drop]
    omega
  refine ⟨⟨hv', hlen, ?_⟩, fun b hb => RunningAverage.average_of_nil b hb⟩
  rw [RunningAverage.average_of_ne_nil _ (by rw [hv']; intro hnil; simp [hnil] at hlen; omega),
    hv', hlen]

/-- C7 witness: capacity 2, samples `[1, 2, 3]`: the average is the mean
of the last two samples, `5/2`. -/
theorem running_average_last_n_witness :
    1 ≤ 2 ∧ 2 < ([1, 2, 3] : List ℚ).length ∧
      ((RunningAverage.mk0 2).addAll [1, 2, 3]).average =
        (([1, 2, 3] : List ℚ).drop ([1, 2, 3].length - 2)).sum / (2 : ℚ) := by
  refine ⟨by norm_num, by norm_num, ?_⟩
  exact ((running_average_last_n 2 [1, 2, 3] (by norm_num) (by norm_num)).1).2.2

/-! ## Helper lemmas for `profile.py` -/

/-- On a strictly time-increasing profile whose head is strictly left of
`t` and whose last breakpoint is strictly right of `t`, the bracket
search succeeds on some consecutive pair and interpolates there. -/
lemma findBracket_bracketed :
    ∀ (l : List (ℚ × ℚ)) (a : ℚ × ℚ) (t : ℚ),
      List.Chain' (fun p q => p.1 < q.1) (a :: l) → a.1 < t →
      t < ((a :: l).getLast (List.cons_ne_nil a l)).1 →
      ∃ pq ∈ (a :: l).zip l, pq.1.1 ≤ t ∧ t ≤ pq.2.1 ∧
        findBracket t (a :: l)
          = some (pq.1.2 + (t - pq.1.1) / (pq.2.1 - pq.1.1) * (pq.2.2 - pq.1.2)) := by
  intro l
  induction l with
  | nil =>
      intro a t _ hat hta
      simp only [List.getLast_singleton] at hta
      exact absurd hat (lt_asymm hta)
  | cons b l' ih =>
      intro a t hchain hat hta
      obtain ⟨hab, hchain'⟩ := List.chain'_cons.mp hchain
      by_cases hb : t ≤ b.1
      · refine ⟨(a, b), ?_, le_of_lt hat, hb, ?_⟩
        · simp [List.zip_cons_cons]
        · obtain ⟨a1, a2⟩ := a
          obtain ⟨b1, b2⟩ := b
          simp only [findBracket]
          rw [if_pos ⟨le_of_lt hat, hb⟩]
      · push_neg at hb
        have hta' : t < ((b :: l').getLast (List.cons_ne_nil b l')).1 := by
          rwa [List.getLast_cons (List.cons_ne_nil b l')] at hta
        obtain ⟨pq, hmem, h1, h2, heq⟩ := ih b t hchain' hb hta'
        refine ⟨pq, ?_, h1, h2, ?_⟩
        · rw [List.zip_cons_cons]
          exact List.mem_cons_of_mem _ hmem
        · obtain ⟨a1, a2⟩ := a
          obtain ⟨b1, b2⟩ := b
          simp only [findBracket]
          rw [if_neg (fun hh => absurd hh.2 (not_le.mpr hb))]
          exact heq

/-- C8: on a nonempty, strictly time-increasing profile,
`piecewise_linear_setpoint` returns the first temperature at or before
the first breakpoint, the last temperature at or after the last one, and
otherwise the linear interpolation over a bracketing consecutive pair;
concretely for `[(0,25),(300,200)]` it gives `112.5`, `25`, `200` at
times `150`, `-10`, `1000`. -/
theorem piecewise_linear_setpoint_spec (first : ℚ × ℚ) (rest : List (ℚ × ℚ))
    (t : ℚ) (hchain : List.Chain' (fun p q => p.1 < q.1) (first :: rest)) :
    (t ≤ first.1 → piecewise_linear_setpoint t (first :: rest) = some first.2) ∧
    (((first :: rest).getLast (List.cons_ne_nil first rest)).1 ≤ t →
      piecewise_linear_setpoint t (first :: rest)
        = some ((first :: rest).getLast (List.cons_ne_nil first rest)).2) ∧
    (first.1 < t → t < ((first :: rest).getLast (List.cons_ne_nil first rest)).1 →
      ∃ pq ∈ (first :: rest).zip rest, pq.1.1 ≤ t ∧ t ≤ pq.2.1 ∧
        piecewise_linear_setpoint t (first :: rest)
          = some (pq.1.2 + (t - pq.1.1) / (pq.2.1 - pq.1.1) * (pq.2.2 - pq.1.2))) ∧
    piecewise_linear_setpoint 150 [(0, 25), (300, 200)] = some (225 / 2) ∧
    piecewise_linear_setpoint (-10) [(0, 25), (300, 200)] = some 25 ∧
    piecewise_linear_setpoint 1000 [(0, 25), (300, 200)] = some 200 := by
  have htrans : IsTrans (ℚ × ℚ) (fun p q => p.1 < q.1) :=
    ⟨fun a b c h1 h2 => lt_trans h1 h2⟩
  refine ⟨?_, ?_, ?_, ?_, ?_, ?_⟩
  · intro hle
    simp only [piecewise_linear_setpoint]
    rw [if_pos hle]
  · intro hge
    cases rest with
    | nil =>
        simp only [piecewise_linear_setpoint, List.getLast_singleton] at hge ⊢
        by_cases hle : t ≤ first.1
        · rw [if_pos hle]
        · rw [if_neg hle, if_pos hge]
    | cons r rs =>
        have hmem : (first :: r :: rs).getLast (List.cons_ne_nil _ _) ∈ r :: rs := by
          rw [List.getLast_cons (List.cons_ne_nil r rs)]
          exact List.getLast_mem (List.cons_ne_nil r rs)
        have hfl : first.1 < ((first :: r :: rs).getLast (List.cons_ne_nil _ _)).1 := by
          have hpw := (List.chain'_iff_pairwise.mp hchain)
          exact (List.pairwise_cons.mp hpw).1 _ hmem
        simp only [piecewise_linear_setpoint]
        rw [if_neg (by intro hle; exact absurd (lt_of_lt_of_le hfl hge) (not_lt.mpr hle)),
          if_pos hge]
  · intro hlt hta
    obtain ⟨pq, hmem, h1, h2, heq⟩ :=
      findBracket_bracketed rest first t hchain hlt hta
    refine ⟨pq, hmem, h1, h2, ?_⟩
    simp only [piecewise_linear_setpoint]
    rw [if_neg (not_le.mpr hlt), if_neg (not_le.mpr hta), heq]
  · norm_num [piecewise_linear_setpoint, findBracket]
  · norm_num [piecewise_linear_setpoint, findBracket]
  · norm_num [piecewise_linear_setpoint, findBracket]

/-- C8 witness: the profile `[(0,25),(300,200)]` is strictly increasing
and `valueAt(150)` is `112.5`. -/
theorem piecewise_linear_setpoint_spec_witness :
    List.Chain' (fun p q : ℚ × ℚ => p.1 < q.1) [(0, 25), (300, 200)] ∧
      piecewise_linear_setpoint 150 [(0, 25), (300, 200)] = some (225 / 2) := by
  refine ⟨by norm_num, ?_⟩
  exact (piecewise_linear_setpoint_spec (0, 25) [(300, 200)] 150 (by norm_num)).2.2.2.1

lemma validateAux_eq_spec (r : ℚ) (u : String) (g : ℚ → ℚ → ℚ)
    (hg : ∀ dt dT, slopeInUnit u dt dT = some (g dt dT)) :
    ∀ (l : List (ℚ × ℚ)) (i : ℕ),
      validateAux r u i l =
        some ((List.enumFrom i (l.zip l.tail)).filterMap fun ip =>
          if ip.2.2.1 - ip.2.1.1 ≤ 0 then none
          else if r < |g (ip.2.2.1 - ip.2.1.1) (ip.2.2.2 - ip.2.1.2)| then
            some (ip.1, g (ip.2.2.1 - ip.2.1.1) (ip.2.2.2 - ip.2.1.2))
          else none) := by
  intro l
  induction l with
  | nil => intro i; rfl
  | cons p1 tl ih =>
      cases tl with
      | nil => intro i; rfl
      | cons p2 rest =>
          intro i
          obtain ⟨t1, T1⟩ := p1
          obtain ⟨t2, T2⟩ := p2
          by_cases hdt : t2 - t1 ≤ 0
          · simp only [validateAux, if_pos hdt]
            rw [ih (i + 1)]
            simp only [List.tail_cons, List.zip_cons_cons, List.enumFrom_cons,
              List.filterMap_cons]
            simp [hdt]
          · simp only [validateAux, if_neg hdt, hg (t2 - t1) (T2 - T1)]
            rw [ih (i + 1)]
            simp only [List.tail_cons, List.zip_cons_cons, List.enumFrom_cons,
              List.filterMap_cons]
            by_cases hsl : r < |g (t2 - t1) (T2 - T1)|
            · simp [hdt, hsl]
            · simp [hdt, hsl]

/-- C9: `validate_profile_rate` matches the spec's description of
`validateRampRate` for both supported units (per-minute slopes multiply
by 60, per-second slopes do not), and the two concrete profiles from the
spec give the stated reports. -/
theorem validate_profile_rate_spec :
    (∀ (profile : List (ℚ × ℚ)) (max_rate : ℚ),
        validate_profile_rate profile max_rate "deg/min"
          = some (specViolations (fun dt dT => dT / dt * 60) profile max_rate)) ∧
    (∀ (profile : List (ℚ × ℚ)) (max_rate : ℚ),
        validate_profile_rate profile max_rate "deg/s"
          = some (specViolations (fun dt dT => dT / dt) profile max_rate)) ∧
    validate_profile_rate [(0, 25), (300, 200), (600, 500)] 30 "deg/min"
      = some [(0, 35), (1, 60)] ∧
    validate_profile_rate [(0, 25), (600, 100), (1200, 200)] 30 "deg/min"
      = some [] := by
  refine ⟨?_, ?_, ?_, ?_⟩
  · intro profile max_rate
    exact validateAux_eq_spec max_rate "deg/min" (fun dt dT => dT / dt * 60)
      (fun dt dT => by simp [slopeInUnit]) profile 0
  · intro profile max_rate
    exact validateAux_eq_spec max_rate "deg/s" (fun dt dT => dT / dt)
      (fun dt dT => by simp [slopeInUnit]) profile 0
  · norm_num [validate_profile_rate, validateAux, slopeInUnit]
  · norm_num [validate_profile_rate, validateAux, slopeInUnit, abs_of_nonneg]

lemma validateAux_unknown_unit (r : ℚ) (u : String)
    (h1 : u ≠ "deg/min") (h2 : u ≠ "deg/s") :
    ∀ (l : List (ℚ × ℚ)) (i : ℕ),
      (∃ pq ∈ l.zip l.tail, pq.1.1 < pq.2.1) → validateAux r u i l = none := by
  intro l
  induction l with
  | nil => intro i h; simp at h
  | cons p1 tl ih =>
      cases tl with
      | nil => intro i h; simp at h
      | cons p2 rest =>
          intro i h
          obtain ⟨t1, T1⟩ := p1
          obtain ⟨t2, T2⟩ := p2
          by_cases hdt : t2 - t1 ≤ 0
          · simp only [validateAux, if_pos hdt]
            apply ih (i + 1)
            obtain ⟨pq, hmem, hlt⟩ := h
            rw [List.tail_cons, List.zip_cons_cons] at hmem
            rcases List.mem_cons.mp hmem with heq | hmem'
            · subst heq
              simp only at hlt
              exact absurd hdt (by simp; linarith)
            · exact ⟨pq, by simpa using hmem', hlt⟩
          · simp only [validateAux, if_neg hdt]
            have : slopeInUnit u (t2 - t1) (T2 - T1) = none := by
              simp [slopeInUnit, h1, h2]
            rw [this]

/-- C10: on a profile with at least one positive-duration segment,
`validate_profile_rate` raises `ValueError` (modelled as `none`) for any
`rate_unit` other than `"deg/min"` and `"deg/s"`. -/
theorem validate_profile_rate_unknown_unit (profile : List (ℚ × ℚ))
    (max_rate : ℚ) (u : String) (h1 : u ≠ "deg/min") (h2 : u ≠ "deg/s")
    (h3 : ∃ pq ∈ profile.zip profile.tail, pq.1.1 < pq.2.1) :
    validate_profile_rate profile max_rate u = none :=
  validateAux_unknown_unit max_rate u h1 h2 profile 0 h3

/-- C10 witness: `validate_profile_rate([(0,0),(1,1)], 30, "deg/h")`
raises. -/
theorem validate_profile_rate_unknown_unit_witness :
    validate_profile_rate [(0, 0), (1, 1)] 30 "deg/h" = none :=
  validate_profile_rate_unknown_unit [(0, 0), (1, 1)] 30 "deg/h"
    (by decide) (by decide)
    ⟨((0, 0), (1, 1)), by simp, by norm_num⟩

/-! ## Helper lemmas for `BurstFire` -/

namespace BurstFire

lemma onTick_nonwrap (s : BurstFire) (h : s.cycle_counter + 1 < s.period_cycles) :
    onTick s = ({ s with cycle_counter := s.cycle_counter + 1 },
      decide (s.cycle_counter < s.on_cycles)) := by
  simp only [onTick]
  rw [if_neg (not_le.mpr h)]

lemma onTick_wrap (s : BurstFire) (h : s.period_cycles ≤ s.cycle_counter + 1) :
    onTick s = (loadDuty { s with cycle_counter := 0 },
      decide (s.cycle_counter < s.on_cycles)) := by
  simp only [onTick]
  rw [if_pos h]

lemma runTicksAux_add (m n : ℕ) :
    ∀ (s : BurstFire) (acc : List Bool),
      runTicksAux s acc (m + n)
        = runTicksAux (runTicksAux s acc m).1 (runTicksAux s acc m).2 n := by
  induction m with
  | zero =>
      intro s acc
      rw [Nat.zero_add]
      rfl
  | succ m ih =>
      intro s acc
      rw [Nat.succ_add]
      show runTicksAux (onTick s).1 ((onTick s).2 :: acc) (m + n) = _
      rw [ih]
      rfl

/-- Running `k` ticks that stay inside the current period advances the
counter by `k` and emits `cycleCounter < onCycles` comparisons. -/
lemma runTicksAux_nonwrap (k : ℕ) (s : BurstFire) (acc : List Bool)
    (h : s.cycle_counter + (k : ℤ) < s.period_cycles) :
    runTicksAux s acc k
      = ({ s with cycle_counter := s.cycle_counter + (k : ℤ) },
        ((List.range k).map fun j : ℕ =>
          decide (s.cycle_counter + (j : ℤ) < s.on_cycles)).reverse ++ acc) := by
  induction k with
  | zero =>
      have hs : ({ s with cycle_counter := s.cycle_counter + ((0 : ℕ) : ℤ) })
          = s := by
        show ({ s with cycle_counter := s.cycle_counter + 0 }) = s
        rw [add_zero]
      rw [hs]
      rfl
  | succ k ih =>
      have hk : s.cycle_counter + (k : ℤ) < s.period_cycles := by
        push_cast at h ⊢
        omega
      rw [runTicksAux_add k 1, ih hk]
      have hnw : ({ s with cycle_counter := s.cycle_counter + (k : ℤ) }).cycle_counter + 1
          < ({ s with cycle_counter := s.cycle_counter + (k : ℤ) }).period_cycles := by
        show s.cycle_counter + (k : ℤ) + 1 < s.period_cycles
        push_cast at h
        omega
      show (runTicksAux (onTick _).1 ((onTick _).2 :: _) 0) = _
      rw [onTick_nonwrap _ hnw]
      simp only [runTicksAux, Prod.mk.injEq]
      refine ⟨?_, ?_⟩
      · show ({ s with cycle_counter := s.cycle_counter + (k : ℤ) + 1 })
            = ({ s with cycle_counter := s.cycle_counter + ((k + 1 : ℕ) : ℤ) })
        congr 1
        push_cast
        ring
      · show decide (s.cycle_counter + (k : ℤ) < s.on_cycles) :: _ = _
        rw [List.range_succ, List.map_append, List.reverse_append]
        simp [List.singleton_append]

/-- Running exactly to the period boundary: the counter wraps to `0` and
the pending duty is loaded. -/
lemma runTicksAux_period (k : ℕ) (s : BurstFire) (acc : List Bool)
    (h : s.cycle_counter + ((k : ℤ) + 1) = s.period_cycles) :
    runTicksAux s acc (k + 1)
      = (loadDuty { s with cycle_counter := 0 },
        ((List.range (k + 1)).map fun j : ℕ =>
          decide (s.cycle_counter + (j : ℤ) < s.on_cycles)).reverse ++ acc) := by
  have hk : s.cycle_counter + (k : ℤ) < s.period_cycles := by omega
  rw [runTicksAux_add k 1, runTicksAux_nonwrap k s acc hk]
  have hw : ({ s with cycle_counter := s.cycle_counter + (k : ℤ) }).period_cycles
      ≤ ({ s with cycle_counter := s.cycle_counter + (k : ℤ) }).cycle_counter + 1 := by
    show s.period_cycles ≤ s.cycle_counter + (k : ℤ) + 1
    omega
  show (runTicksAux (onTick _).1 ((onTick _).2 :: _) 0) = _
  rw [onTick_wrap _ hw]
  simp only [runTicksAux, Prod.mk.injEq]
  refine ⟨trivial, ?_⟩
  show decide (s.cycle_counter + (k : ℤ) < s.on_cycles) :: _ = _
  rw [List.range_succ, List.map_append, List.reverse_append]
  simp [List.singleton_append]

end BurstFire

/-- C3 counterexample: the claim says `setDuty(1.5)` clamps to `1` and
stores it without raising, but `set_duty` asserts `0 <= percent <= 1`,
so the call raises `AssertionError` (modelled as `none`). -/
theorem set_duty_out_of_range_cex :
    BurstFire.set_duty (BurstFire.mk0 60 20 (1 / 2)) (3 / 2) = none := by
  simp only [BurstFire.set_duty]
  rw [if_neg (by norm_num)]

/-- C3 amended: `set_duty(fraction)` asserts `0 <= fraction <= 1`
(raising `AssertionError` outside that range, instead of clamping); in
range it stores the fraction unchanged into the pending duty and leaves
the active duty, `cycle_counter` and `on_cycles` untouched. -/
theorem set_duty_asserts_and_stores (s : BurstFire) (p : ℚ) :
    (0 ≤ p ∧ p ≤ 1 →
      (BurstFire.set_duty s p).map
          (fun r => (r.next_duty_percent, r.duty_percent, r.cycle_counter, r.on_cycles))
        = some (p, s.duty_percent, s.cycle_counter, s.on_cycles)) ∧
    (¬(0 ≤ p ∧ p ≤ 1) → BurstFire.set_duty s p = none) := by
  constructor
  · intro h
    simp only [BurstFire.set_duty]
    rw [if_pos h]
    rfl
  · intro h
    simp only [BurstFire.set_duty]
    rw [if_neg h]

/-- C3 witness: `set_duty(0.75)` on a fresh actuator stores `3/4` as the
pending duty and changes nothing else. -/
theorem set_duty_asserts_and_stores_witness :
    (BurstFire.set_duty (BurstFire.mk0 60 20 (1 / 2)) (3 / 4)).map
        (fun r => (r.next_duty_percent, r.duty_percent, r.cycle_counter, r.on_cycles))
      = some (3 / 4, (BurstFire.mk0 60 20 (1 / 2)).duty_percent,
          (BurstFire.mk0 60 20 (1 / 2)).cycle_counter,
          (BurstFire.mk0 60 20 (1 / 2)).on_cycles) :=
  (set_duty_asserts_and_stores (BurstFire.mk0 60 20 (1 / 2)) (3 / 4)).1 (by norm_num)

/-- C4 counterexample: starting from `BurstFire(period_cycles=20,
duty_percent=0.33)` and ticking six times, the counter is `6`; the claim
predicts the pin high because `6 < round(20 * 0.33) = 7`, but the code
truncates (`int(20 * 0.33) = 6`) and drives the pin low. -/
theorem burst_on_cycles_truncation_cex :
    (BurstFire.onTick (BurstFire.runTicks (BurstFire.mk0 60 20 (33 / 100)) 6).1).2
        = false ∧
      (BurstFire.runTicks (BurstFire.mk0 60 20 (33 / 100)) 6).1.cycle_counter <
        roundNearest
          (((BurstFire.runTicks (BurstFire.mk0 60 20 (33 / 100)) 6).1.period_cycles : ℚ)
            * (BurstFire.runTicks (BurstFire.mk0 60 20 (33 / 100)) 6).1.duty_percent) := by
  have hB : BurstFire.mk0 60 20 (33 / 100)
      = (⟨60, 20, 33 / 100, 33 / 100, 6, 0⟩ : BurstFire) := by
    simp only [BurstFire.mk0, BurstFire.mk.injEq]
    norm_num [pyInt]
  have h6 : (BurstFire.runTicks (⟨60, 20, 33 / 100, 33 / 100, 6, 0⟩ : BurstFire) 6).1
      = (⟨60, 20, 33 / 100, 33 / 100, 6, 6⟩ : BurstFire) := by
    simp only [BurstFire.runTicks]
    rw [BurstFire.runTicksAux_nonwrap 6 _ _ (by decide)]
    simp only [BurstFire.mk.injEq]
    norm_num
  rw [hB, h6]
  constructor
  · rw [BurstFire.onTick_nonwrap _ (by decide)]
    decide
  · norm_num [roundNearest]

/-- C4 amended: on every tick the pin is driven high iff
`cycle_counter < on_cycles`, where `on_cycles` equals
`int(period_cycles * duty_percent)` — Python's truncating `int()`, not
rounding to nearest: the relation is established by the constructor and
preserved by every tick and by `set_duty`. -/
theorem burst_tick_pin_iff_and_truncation :
    (∀ s : BurstFire, (BurstFire.onTick s).2 = true ↔ s.cycle_counter < s.on_cycles) ∧
    (∀ (f p : ℤ) (d : ℚ),
        (BurstFire.mk0 f p d).on_cycles
          = pyInt (((BurstFire.mk0 f p d).period_cycles : ℚ)
              * (BurstFire.mk0 f p d).duty_percent)) ∧
    (∀ s : BurstFire,
        s.on_cycles = pyInt ((s.period_cycles : ℚ) * s.duty_percent) →
        (BurstFire.onTick s).1.on_cycles
          = pyInt (((BurstFire.onTick s).1.period_cycles : ℚ)
              * (BurstFire.onTick s).1.duty_percent)) ∧
    (∀ (s s' : BurstFire) (p : ℚ), BurstFire.set_duty s p = some s' →
        s'.on_cycles = s.on_cycles ∧ s'.duty_percent = s.duty_percent ∧
          s'.period_cycles = s.period_cycles) := by
  refine ⟨?_, ?_, ?_, ?_⟩
  · intro s
    simp only [BurstFire.onTick]
    split <;> simp
  · intro f p d
    rfl
  · intro s h
    simp only [BurstFire.onTick]
    split
    · rfl
    · exact h
  · intro s s' p hsd
    simp only [BurstFire.set_duty] at hsd
    split at hsd
    · cases hsd
      exact ⟨rfl, rfl, rfl⟩
    · cases hsd

/-- C4 witness: a fresh `BurstFire(20, 1.0)` satisfies the truncation
relation, and one tick preserves it. -/
theorem burst_tick_pin_iff_and_truncation_witness :
    (⟨60, 20, 1, 1, 20, 0⟩ : BurstFire).on_cycles
        = pyInt (((⟨60, 20, 1, 1, 20, 0⟩ : BurstFire).period_cycles : ℚ)
            * (⟨60, 20, 1, 1, 20, 0⟩ : BurstFire).duty_percent) ∧
      (BurstFire.onTick ⟨60, 20, 1, 1, 20, 0⟩).1.on_cycles
        = pyInt (((BurstFire.onTick ⟨60, 20, 1, 1, 20, 0⟩).1.period_cycles : ℚ)
            * (BurstFire.onTick ⟨60, 20, 1, 1, 20, 0⟩).1.duty_percent) :=
  ⟨by norm_num [pyInt],
    burst_tick_pin_iff_and_truncation.2.2.1 ⟨60, 20, 1, 1, 20, 0⟩ (by norm_num [pyInt])⟩

/-- C5: the active duty changes only at a period boundary: a non-wrapping
tick leaves `duty_percent` and `on_cycles` unchanged and increments the
counter; a wrapping tick resets the counter to `0` and loads the pending
duty, recomputing `on_cycles`; `set_duty` never touches the active duty
or the counter; and concretely, with `period_cycles = 20` and
`setDuty(0.5)` issued mid-period at counter 5, the remaining 15 ticks of
the current period stay at the old duty `1.0` (all ON) and the next
period runs 10 of 20 cycles ON. -/
theorem burst_duty_change_at_period_boundary :
    (∀ s : BurstFire, s.cycle_counter + 1 < s.period_cycles →
        (BurstFire.onTick s).1.duty_percent = s.duty_percent ∧
        (BurstFire.onTick s).1.on_cycles = s.on_cycles ∧
        (BurstFire.onTick s).1.cycle_counter = s.cycle_counter + 1) ∧
    (∀ s : BurstFire, s.period_cycles ≤ s.cycle_counter + 1 →
        (BurstFire.onTick s).1.cycle_counter = 0 ∧
        (BurstFire.onTick s).1.duty_percent = s.next_duty_percent ∧
        (BurstFire.onTick s).1.on_cycles
          = pyInt ((s.period_cycles : ℚ) * s.next_duty_percent)) ∧
    (∀ (s s' : BurstFire) (p : ℚ), BurstFire.set_duty s p = some s' →
        s'.duty_percent = s.duty_percent ∧ s'.on_cycles = s.on_cycles ∧
          s'.cycle_counter = s.cycle_counter) ∧
    (∃ s5 s5' : BurstFire,
        BurstFire.runTicks (BurstFire.mk0 60 20 1) 5 = (s5, List.replicate 5 true) ∧
        BurstFire.set_duty s5 (1 / 2) = some s5' ∧
        s5'.duty_percent = 1 ∧ s5'.cycle_counter = 5 ∧
        (BurstFire.runTicks s5' 15).2 = List.replicate 15 true ∧
        (BurstFire.runTicks (BurstFire.runTicks s5' 15).1 20).2
          = List.replicate 10 true ++ List.replicate 10 false) := by
  refine ⟨?_, ?_, ?_, ?_⟩
  · intro s h
    rw [BurstFire.onTick_nonwrap s h]
    exact ⟨rfl, rfl, rfl⟩
  · intro s h
    rw [BurstFire.onTick_wrap s h]
    exact ⟨rfl, rfl, rfl⟩
  · intro s s' p hsd
    simp only [BurstFire.set_duty] at hsd
    split at hsd
    · cases hsd
      exact ⟨rfl, rfl, rfl⟩
    · cases hsd
  · have hA : BurstFire.mk0 60 20 1 = (⟨60, 20, 1, 1, 20, 0⟩ : BurstFire) := by
      simp only [BurstFire.mk0, BurstFire.mk.injEq]
      norm_num [pyInt]
    have h5 : BurstFire.runTicks (⟨60, 20, 1, 1, 20, 0⟩ : BurstFire) 5
        = (⟨60, 20, 1, 1, 20, 5⟩, List.replicate 5 true) := by
      simp only [BurstFire.runTicks]
      rw [BurstFire.runTicksAux_nonwrap 5 _ _ (by decide)]
      simp only [Prod.mk.injEq]
      refine ⟨?_, by decide⟩
      simp only [BurstFire.mk.injEq]
      norm_num
    have hsd : BurstFire.set_duty (⟨60, 20, 1, 1, 20, 5⟩ : BurstFire) (1 / 2)
        = some ⟨60, 20, 1 / 2, 1, 20, 5⟩ := by
      simp only [BurstFire.set_duty]
      rw [if_pos (by norm_num)]
    have h15 : BurstFire.runTicks (⟨60, 20, 1 / 2, 1, 20, 5⟩ : BurstFire) 15
        = (⟨60, 20, 1 / 2, 1 / 2, 10, 0⟩, List.replicate 15 true) := by
      simp only [BurstFire.runTicks]
      rw [show (15 : ℕ) = 14 + 1 from rfl,
        BurstFire.runTicksAux_period 14 _ _ (by decide)]
      simp only [Prod.mk.injEq]
      refine ⟨?_, by decide⟩
      simp only [BurstFire.loadDuty, BurstFire.mk.injEq]
      norm_num [pyInt]
    have h20 : BurstFire.runTicks (⟨60, 20, 1 / 2, 1 / 2, 10, 0⟩ : BurstFire) 20
        = (⟨60, 20, 1 / 2, 1 / 2, 10, 0⟩,
          List.replicate 10 true ++ List.replicate 10 false) := by
      simp only [BurstFire.runTicks]
      rw [show (20 : ℕ) = 19 + 1 from rfl,
        BurstFire.runTicksAux_period 19 _ _ (by decide)]
      simp only [Prod.mk.injEq]
      refine ⟨?_, by decide⟩
      simp only [BurstFire.loadDuty, BurstFire.mk.injEq]
      norm_num [pyInt]
    refine ⟨⟨60, 20, 1, 1, 20, 5⟩, ⟨60, 20, 1 / 2, 1, 20, 5⟩, ?_, hsd, rfl, rfl, ?_, ?_⟩
    · rw [hA, h5]
    · rw [h15]
    · rw [h15, h20]

/-- C5 witness: a non-wrapping tick on a fresh `BurstFire(20, 1.0)`
keeps the active duty and `on_cycles` and increments the counter. -/
theorem burst_duty_change_at_period_boundary_witness :
    (BurstFire.onTick ⟨60, 20, 1, 1, 20, 0⟩).1.duty_percent
        = (⟨60, 20, 1, 1, 20, 0⟩ : BurstFire).duty_percent ∧
      (BurstFire.onTick ⟨60, 20, 1, 1, 20, 0⟩).1.on_cycles
        = (⟨60, 20, 1, 1, 20, 0⟩ : BurstFire).on_cycles ∧
      (BurstFire.onTick ⟨60, 20, 1, 1, 20, 0⟩).1.cycle_counter
        = (⟨60, 20, 1, 1, 20, 0⟩ : BurstFire).cycle_counter + 1 :=
  burst_duty_change_at_period_boundary.1 ⟨60, 20, 1, 1, 20, 0⟩ (by decide)

/-! ## Helper lemmas for `RampSoak` -/

lemma abs_clamp_le (x m : ℚ) (hm : 0 ≤ m) : |max (min x m) (-m)| ≤ m := by
  rw [abs_le]
  constructor
  · exact le_max_right _ _
  · exact max_le (min_le_right _ _) (by linarith)

/-- A successful `pid_core` sets `d_val` by the guarded derivative
formula, sets `i_val` by accumulation followed by the clamp, and leaves
`imax` unchanged. -/
lemma pid_core_fields (s : RampSoak) (cv dt inst : ℚ) (s' : RampSoak)
    (out : ℚ) (h : RampSoak.pid_core s cv dt inst = some (s', out)) :
    s'.d_val = (if 0 < dt then s.kd * (s'.error - s.error) / dt else 0) ∧
      s'.i_val = max (min (s.i_val + s.ki * s'.error * dt) s.imax) (-s.imax) ∧
      s'.imax = s.imax := by
  simp only [RampSoak.pid_core] at h
  split at h
  · exact Option.noConfusion h
  · have hs' := congrArg Prod.fst (Option.some.inj h)
    subst hs'
    exact ⟨rfl, rfl, rfl⟩

/-- With a nonzero `crossover_distance`, `pid_core` never raises. -/
lemma pid_core_some (s : RampSoak) (cv dt inst : ℚ)
    (hcd : s.crossover_distance ≠ 0) :
    ∃ r, RampSoak.pid_core s cv dt inst = some r := by
  simp only [RampSoak.pid_core]
  rw [if_neg (fun hh => hcd hh.2)]
  exact ⟨_, rfl⟩

/-- Every successful `pid_step` goes through `pid_core` at some
instantaneous ramp value. -/
lemma pid_step_to_core (s : RampSoak) (cv dt : ℚ) (s' : RampSoak) (out : ℚ)
    (h : RampSoak.pid_step s cv dt = some (s', out)) :
    ∃ inst, RampSoak.pid_core s cv dt inst = some (s', out) := by
  cases hp : s.prev_val with
  | none =>
      simp only [RampSoak.pid_step, hp] at h
      exact ⟨0, h⟩
  | some pv =>
      simp only [RampSoak.pid_step, hp] at h
      split at h
      · exact Option.noConfusion h
      · exact ⟨_, h⟩

/-- The concrete evaluation of `pid_step(25, 1)` on `pidT`. -/
lemma pid_step_pidT_eval :
    RampSoak.pid_step pidT 25 1 = some (pidS1, 93 / 2) := by
  norm_num [RampSoak.pid_step, RampSoak.pid_core, pidT, pidS1,
    RampSoak.set_target, RampSoak.default, RampSoak.mk0,
    RunningAverage.add, RunningAverage.average, RunningAverage.mk0,
    N_RAMP_AVG, N_DVAL_AVG, S_PER_MIN, abs_of_nonneg, abs_of_nonpos]

/-- C1: after every successful `pid_step` on a controller whose `imax` is
nonnegative, the integral accumulator satisfies `|i_val| <= imax`: the
clamp to `[-imax, imax]` is applied after every accumulation. -/
theorem pid_integral_clamped (s : RampSoak) (cv dt : ℚ) (s' : RampSoak)
    (out : ℚ) (himax : 0 ≤ s.imax)
    (h : RampSoak.pid_step s cv dt = some (s', out)) :
    |s'.i_val| ≤ s.imax := by
  obtain ⟨inst, hc⟩ := pid_step_to_core s cv dt s' out h
  obtain ⟨_, hi, _⟩ := pid_core_fields s cv dt inst s' out hc
  rw [hi]
  exact abs_clamp_le _ _ himax

/-- C1 witness: on the default controller with target `100`, after
`pid_step(25, 1)` the integral accumulator is within `imax = 100`. -/
theorem pid_integral_clamped_witness :
    0 ≤ pidT.imax ∧ |pidS1.i_val| ≤ pidT.imax :=
  ⟨by norm_num [pidT, RampSoak.set_target, RampSoak.default, RampSoak.mk0],
    pid_integral_clamped pidT 25 1 pidS1 (93 / 2)
      (by norm_num [pidT, RampSoak.set_target, RampSoak.default, RampSoak.mk0])
      pid_step_pidT_eval⟩

/-- C2 counterexample: in the reachable state `pidS1` (one successful
step from a fresh controller), `pid_step(26, 0)` raises
`ZeroDivisionError` (the ramp-rate division by `dt` is unguarded), and
`pid_step(26, -1)` does not leave the integral accumulator unchanged: it
moves from `3/2` to `-3/2`. -/
theorem pid_step_nonpositive_dt_cex :
    RampSoak.pid_step pidT 25 1 = some (pidS1, 93 / 2) ∧
      RampSoak.pid_step pidS1 26 0 = none ∧
      ((RampSoak.pid_step pidS1 26 (-1)).map fun r => r.1.i_val)
        = some (-(3 / 2)) ∧
      pidS1.i_val = 3 / 2 := by
  refine ⟨pid_step_pidT_eval, ?_, ?_, rfl⟩
  · simp [RampSoak.pid_step, pidS1]
  · norm_num [RampSoak.pid_step, RampSoak.pid_core, pidS1,
      RunningAverage.add, RunningAverage.average,
      N_RAMP_AVG, N_DVAL_AVG, S_PER_MIN, abs_of_nonneg, abs_of_nonpos]

/-- C2 amended: for `dt <= 0` (with a nonzero `crossover_distance`, whose
vanishing is an unrelated failure mode), `pid_step` raises exactly when
`dt = 0` and a previous measurement exists; when it does not raise, the
derivative term is degraded to `0`, but the integral accumulator is still
updated by `ki * error * dt` (then clamped), not left unchanged. -/
theorem pid_step_nonpositive_dt (s : RampSoak) (cv dt : ℚ) (hdt : dt ≤ 0)
    (hcd : s.crossover_distance ≠ 0) :
    (RampSoak.pid_step s cv dt = none ↔ s.prev_val ≠ none ∧ dt = 0) ∧
      ∀ (s' : RampSoak) (out : ℚ),
        RampSoak.pid_step s cv dt = some (s', out) →
          s'.d_val = 0 ∧
            s'.i_val
              = max (min (s.i_val + s.ki * s'.error * dt) s.imax) (-s.imax) := by
  constructor
  · constructor
    · intro h
      cases hp : s.prev_val with
      | none =>
          exfalso
          obtain ⟨r, hr⟩ := pid_core_some s cv dt 0 hcd
          simp only [RampSoak.pid_step, hp] at h
          rw [h] at hr
          exact Option.noConfusion hr
      | some pv =>
          refine ⟨by simp [hp], ?_⟩
          by_contra hdz
          simp only [RampSoak.pid_step, hp] at h
          rw [if_neg hdz] at h
          obtain ⟨r, hr⟩ := pid_core_some s cv dt (S_PER_MIN * (cv - pv) / dt) hcd
          rw [h] at hr
          exact Option.noConfusion hr
    · rintro ⟨hprev, rfl⟩
      cases hp : s.prev_val with
      | none => exact absurd hp hprev
      | some pv =>
          simp [RampSoak.pid_step, hp]
  · intro s' out h
    obtain ⟨inst, hc⟩ := pid_step_to_core s cv dt s' out h
    obtain ⟨hd, hi, _⟩ := pid_core_fields s cv dt inst s' out hc
    refine ⟨?_, hi⟩
    rw [hd, if_neg (not_lt.mpr hdt)]

/-- C2 amended witness: on `pidS1` with `dt = -1`, the step does not
raise, and on the returned state the derivative term is `0` and the
integral follows the clamped accumulation formula. -/
theorem pid_step_nonpositive_dt_witness :
    ((-1 : ℚ) ≤ 0 ∧ pidS1.crossover_distance ≠ 0) ∧
      (RampSoak.pid_step pidS1 26 (-1) = none ↔
        pidS1.prev_val ≠ none ∧ (-1 : ℚ) = 0) := by
  have h := pid_step_nonpositive_dt pidS1 26 (-1) (by norm_num)
    (by norm_num [pidS1])
  exact ⟨⟨by norm_num, by norm_num [pidS1]⟩, h.1⟩

/-- C6 counterexample: in the reachable state `pidS1`, `reset_pid` leaves
both smoothing buffers non-empty (`[0]` and `[30]`), so it does not empty
them as the claim states. -/
theorem reset_pid_buffers_cex :
    RampSoak.pid_step pidT 25 1 = some (pidS1, 93 / 2) ∧
      (RampSoak.reset_pid pidS1).ramp_rate_avg.values = [0] ∧
      (RampSoak.reset_pid pidS1).d_val_avg.values = [30] ∧
      (RampSoak.reset_pid pidS1).ramp_rate_avg.values ≠ [] ∧
      (RampSoak.reset_pid pidS1).d_val_avg.values ≠ [] := by
  refine ⟨pid_step_pidT_eval, rfl, rfl, ?_, ?_⟩ <;> simp [RampSoak.reset_pid, pidS1]

/-- C6 amended: `reset_pid` clears `prev_val`, `error`, `i_val` and the
smoothed `ramp_rate`, and leaves everything else — the tuning gains,
`imax`, the ramp limits, the crossover distance, and in particular both
smoothing buffers — unchanged. -/
theorem reset_pid_clears_state_keeps_rest (s : RampSoak) :
    (RampSoak.reset_pid s).prev_val = none ∧
      (RampSoak.reset_pid s).error = 0 ∧
      (RampSoak.reset_pid s).i_val = 0 ∧
      (RampSoak.reset_pid s).ramp_rate = 0 ∧
      (RampSoak.reset_pid s).kp = s.kp ∧
      (RampSoak.reset_pid s).ki = s.ki ∧
      (RampSoak.reset_pid s).kd = s.kd ∧
      (RampSoak.reset_pid s).imax = s.imax ∧
      (RampSoak.reset_pid s).ramp_up_limit = s.ramp_up_limit ∧
      (RampSoak.reset_pid s).ramp_down_limit = s.ramp_down_limit ∧
      (RampSoak.reset_pid s).crossover_distance = s.crossover_distance ∧
      (RampSoak.reset_pid s).ramp_rate_avg = s.ramp_rate_avg ∧
      (RampSoak.reset_pid s).d_val_avg = s.d_val_avg ∧
      (RampSoak.reset_pid s).p_val = s.p_val ∧
      (RampSoak.reset_pid s).d_val = s.d_val ∧
      (RampSoak.reset_pid s).current_val = s.current_val ∧
      (RampSoak.reset_pid s).target_val = s.target_val ∧
      (RampSoak.reset_pid s).instantaneous_ramp = s.instantaneous_ramp ∧
      (RampSoak.reset_pid s).desired_ramp_rate = s.desired_ramp_rate :=
  ⟨rfl, rfl, rfl, rfl, rfl, rfl, rfl, rfl, rfl, rfl, rfl, rfl, rfl, rfl,
    rfl, rfl, rfl, rfl, rfl⟩

end Phoenix
